import Mathlib

/-! Verification development for the tensorexpr IR simplifier
(torch/csrc/jit/tensorexpr/ir_simplifier.h).

Part 1 embeds, directly from the header, the dtype-promotion helpers
(promoteTypesVec, promoteTypesMap, promoteTypesVar), the Term/Polynomial
constructors, and the generic binary-operator rewriting step
(PolynomialTransformer::mutateBinaryOp together with the mutate overloads
for Mod/And/Xor/Lshift/Rshift/Max/Min).  External collaborators that the
header only declares (promoteTypes, evaluateOp, newBinaryOpOfType, the
HashProvider, getImmediateByType, and the sort bodies of Term/Polynomial)
are modelled from the spec; each such definition says so in its doc comment.

Part 2 models, from the spec, the two-pass simplification pipeline
(Polynomial Transformer followed by Term Expander) over the arithmetic
fragment const/variable/add/sub/mul, in order to settle the facade and
idempotence claims whose implementation bodies are not part of the excerpt. -/

namespace IRSimp

/-! ### Dtypes and promotion helpers (ir_simplifier.h lines 25-94) -/

inductive ScalarType where
  | uint8
  | int8
  | int16
  | int32
  | int64
  | float32
  | float64
deriving DecidableEq

structure Dtype where
  scalar_type : ScalarType
  lanes : Nat
deriving DecidableEq

def scalarRank : ScalarType → Nat
  | .uint8 => 0
  | .int8 => 1
  | .int16 => 2
  | .int32 => 3
  | .int64 => 4
  | .float32 => 5
  | .float64 => 6

/-- Modelled from the spec: the surrounding compiler infrastructure provides
a dtype promotion function promoteTypes(a, b) -> dtype over the scalar/lane
model Dtype(scalar_type, lanes) (declared in types.h, not part of the
excerpt).  We model scalar promotion as taking the higher-ranked scalar type
and keep the left operand's lane count. -/
def promoteTypes (a b : Dtype) : Dtype :=
  ⟨if scalarRank a.scalar_type ≤ scalarRank b.scalar_type then b.scalar_type
    else a.scalar_type,
   a.lanes⟩

/-- promoteTypesVec(const Expr* s, std::vector v) from the header: starts from
the scalar's dtype, replaces its lane count by the first element's lane count
on the first loop iteration, and folds promoteTypes over every element.  The
loop only reads each element's dtype, so we embed it over the dtype list. -/
def promoteTypesVec (s : Dtype) (v : List Dtype) : Dtype :=
  (v.foldl
    (fun (p : Dtype × Bool) (e : Dtype) =>
      let t := if p.2 then Dtype.mk p.1.scalar_type e.lanes else p.1
      (promoteTypes t e, false))
    (s, true)).1

/-- promoteTypesVec(std::vector v) from the header: throws malformed_input on
an empty vector, otherwise starts from v[0]'s dtype and folds promoteTypes
over every element (v[0] included again). -/
def promoteTypesVecNoScalar (v : List Dtype) : Except String Dtype :=
  match v with
  | [] => .error "empty list of types"
  | e0 :: _ => .ok (v.foldl promoteTypes e0)

/-- promoteTypesMap from the header: identical loop to the scalar-plus-vector
overload but iterating over the entries of an unordered_map; we embed the map
as an association list whose order is the iteration order. -/
def promoteTypesMap (s : Dtype) (m : List (Nat × Dtype)) : Dtype :=
  (m.foldl
    (fun (p : Dtype × Bool) (e : Nat × Dtype) =>
      let t := if p.2 then Dtype.mk p.1.scalar_type e.2.lanes else p.1
      (promoteTypes t e.2, false))
    (s, true)).1

/-- promoteTypesVar from the header: the variadic pairwise promotion.  Each
operand contributes its dtype and its isConstant() flag; when the left
operand is constant its scalar type is recombined with the lane count of the
promoted right-hand side before promoteTypes is applied. -/
def promoteTypesVar (e : Dtype × Bool) : List (Dtype × Bool) → Dtype
  | [] => e.1
  | f :: fs =>
    let lhs := e.1
    let rhs := promoteTypesVar f fs
    let lhs2 := if e.2 then Dtype.mk lhs.scalar_type rhs.lanes else lhs
    promoteTypes lhs2 rhs

/-! ### The expression nodes consumed by mutateBinaryOp -/

inductive Expr where
  | imm (d : Dtype) (v : Int)
  | evar (d : Dtype) (id : Nat)
  | modE (l r : Expr)
  | andE (l r : Expr)
  | xorE (l r : Expr)
  | lshiftE (l r : Expr)
  | rshiftE (l r : Expr)
  | maxE (l r : Expr) (pn : Bool)
  | minE (l r : Expr) (pn : Bool)
deriving DecidableEq

def Expr.isConstant : Expr → Bool
  | .imm _ _ => true
  | _ => false

def Expr.dtype : Expr → Dtype
  | .imm d _ => d
  | .evar d _ => d
  | .modE l r => promoteTypes l.dtype r.dtype
  | .andE l r => promoteTypes l.dtype r.dtype
  | .xorE l r => promoteTypes l.dtype r.dtype
  | .lshiftE l r => promoteTypes l.dtype r.dtype
  | .rshiftE l r => promoteTypes l.dtype r.dtype
  | .maxE l r _ => promoteTypes l.dtype r.dtype
  | .minE l r _ => promoteTypes l.dtype r.dtype

inductive BinKind where
  | kMod
  | kAnd
  | kXor
  | kLshift
  | kRshift
  | kMax
  | kMin
deriving DecidableEq

/-- Modelled from the spec: newBinaryOpOfType (declared in ir.h, body not part
of the excerpt) builds a node of the requested kind from the two operands;
for Max and Min the boolean option is the propagate_nans flag of the new
node, for the other kinds it is ignored. -/
def newBinaryOpOfType (k : BinKind) (l r : Expr) (opt : Bool) : Expr :=
  match k with
  | .kMod => .modE l r
  | .kAnd => .andE l r
  | .kXor => .xorE l r
  | .kLshift => .lshiftE l r
  | .kRshift => .rshiftE l r
  | .kMax => .maxE l r opt
  | .kMin => .minE l r opt

def Expr.binDecomp : Expr → Option (BinKind × Expr × Expr)
  | .modE l r => some (.kMod, l, r)
  | .andE l r => some (.kAnd, l, r)
  | .xorE l r => some (.kXor, l, r)
  | .lshiftE l r => some (.kLshift, l, r)
  | .rshiftE l r => some (.kRshift, l, r)
  | .maxE l r _ => some (.kMax, l, r)
  | .minE l r _ => some (.kMin, l, r)
  | _ => none

def Expr.propagateNansOf : Expr → Option Bool
  | .maxE _ _ pn => some pn
  | .minE _ _ pn => some pn
  | _ => none

def evalBin (k : BinKind) (a b : Int) : Int :=
  match k with
  | .kMod => a % b
  | .kAnd => Int.land a b
  | .kXor => Int.xor a b
  | .kLshift => a * 2 ^ b.toNat
  | .kRshift => a / 2 ^ b.toNat
  | .kMax => max a b
  | .kMin => min a b

/-- Modelled from the spec: the external constant-folding evaluator
evaluateOp(node) -> Expr (declared in eval.h, not part of the excerpt),
which, given a node whose operands are all literal, returns a literal result
node; on anything else its behaviour is its own and the simplifier does not
intercept it (here: it returns the node unchanged). -/
def evaluateOp (v : Expr) : Expr :=
  match v.binDecomp with
  | some (k, .imm dl a, .imm dr b) => .imm (promoteTypes dl dr) (evalBin k a b)
  | _ => v

/-- PolynomialTransformer::mutateBinaryOp from the header (lines 320-342):
mutate both children with the given mutator, keep the original node when
neither child changed and otherwise rebuild a node of the same kind via
newBinaryOpOfType, then constant-fold through evaluateOp exactly when both
mutated children are constant. -/
def mutateBinaryOp (v : Expr) (m : Expr → Expr) (opt : Bool) : Expr :=
  match v.binDecomp with
  | none => v
  | some (k, lhs, rhs) =>
    let lhs_new := m lhs
    let rhs_new := m rhs
    let node := if lhs = lhs_new ∧ rhs = rhs_new then v
      else newBinaryOpOfType k lhs_new rhs_new opt
    if lhs_new.isConstant ∧ rhs_new.isConstant then evaluateOp node else node

/-- The mutate overloads of PolynomialTransformer for Mod, And, Xor, Lshift,
Rshift, Max and Min (header lines 288-314): each delegates to mutateBinaryOp,
passing the default option false for the first five kinds and the node's own
propagate_nans flag for Max and Min.  The parameter m stands for the
recursive accept_mutator dispatch on the children. -/
def PolynomialTransformer.mutate (m : Expr → Expr) (v : Expr) : Expr :=
  match v with
  | .modE _ _ => mutateBinaryOp v m false
  | .andE _ _ => mutateBinaryOp v m false
  | .xorE _ _ => mutateBinaryOp v m false
  | .lshiftE _ _ => mutateBinaryOp v m false
  | .rshiftE _ _ => mutateBinaryOp v m false
  | .maxE _ _ pn => mutateBinaryOp v m pn
  | .minE _ _ pn => mutateBinaryOp v m pn
  | x => x

def isGenericBinKind : BinKind → Bool
  | .kMod => true
  | .kAnd => true
  | .kXor => true
  | .kLshift => true
  | .kRshift => true
  | .kMax => false
  | .kMin => false

/-! ### Hash provider, Term and Polynomial (ir_simplifier.h lines 96-232) -/

def dtypeCode (d : Dtype) : Nat :=
  8 * scalarRank d.scalar_type + d.lanes

def intCode (v : Int) : Nat :=
  2 * v.natAbs + (if v < 0 then 1 else 0)

/-- Modelled from the spec: the Hash Provider computes a deterministic
structural hash for any expression subtree (hash_provider.h, not part of the
excerpt).  Any concrete deterministic structural hash is a faithful model;
collisions are permitted by the contract. -/
def exprHash : Expr → Nat
  | .imm d v => 1 + 9 * dtypeCode d + 25 * intCode v
  | .evar d i => 2 + 9 * dtypeCode d + 25 * i
  | .modE l r => 3 + 31 * exprHash l + 37 * exprHash r
  | .andE l r => 4 + 31 * exprHash l + 37 * exprHash r
  | .xorE l r => 5 + 31 * exprHash l + 37 * exprHash r
  | .lshiftE l r => 6 + 31 * exprHash l + 37 * exprHash r
  | .rshiftE l r => 7 + 31 * exprHash l + 37 * exprHash r
  | .maxE l r pn => 8 + 31 * exprHash l + 37 * exprHash r + (if pn then 1 else 0)
  | .minE l r pn => 9 + 31 * exprHash l + 37 * exprHash r + (if pn then 1 else 0)

/-- Insertion of one element into a list sorted by a numeric key. -/
def keyInsert {α : Type} (key : α → Nat) (x : α) : List α → List α
  | [] => [x]
  | y :: ys => if key x ≤ key y then x :: y :: ys else y :: keyInsert key x ys

/-- Sorting by a numeric key; used to model the sort() bodies of Term and
Polynomial ("Sort by hash to normalize order of components"), whose
implementations are not part of the excerpt. -/
def keySort {α : Type} (key : α → Nat) : List α → List α
  | [] => []
  | x :: xs => keyInsert key x (keySort key xs)

/-- The embedded Term node: promoted dtype, constant scalar slot and the
hash-sorted variable list. -/
structure TermS where
  dtype : Dtype
  scalar : Expr
  vars : List Expr
deriving DecidableEq

def exprDB (e : Expr) : Dtype × Bool :=
  (e.dtype, e.isConstant)

/-- Modelled from the spec: Term::sort() orders the variable components by
their hash to normalize the order of components. -/
def Term.sortVars (v : List Expr) : List Expr :=
  keySort exprHash v

/-- The variadic Term constructor (header lines 100-106): dtype from
promoteTypesVar over the scalar and all components, CHECK(s->isConstant()),
components appended in argument order, then sorted.  The CHECK failure is a
fatal error, modelled as Except.error. -/
def Term.mkVariadic (s : Expr) (ts : List Expr) : Except String TermS :=
  if s.isConstant then
    .ok ⟨promoteTypesVar (exprDB s) (ts.map exprDB), s, Term.sortVars ts⟩
  else .error "CHECK failed: s->isConstant()"

/-- The vector Term constructor (header lines 108-114): dtype from
promoteTypesVec over the scalar and the vector; the scalar is stored without
any isConstant check, and the variables are sorted. -/
def Term.mkVec (s : Expr) (v : List Expr) : TermS :=
  ⟨promoteTypesVec s.dtype (v.map Expr.dtype), s, Term.sortVars v⟩

/-- The map Term constructor (header lines 117-126): dtype from
promoteTypesMap; the map values are appended then sorted; no isConstant
check on the scalar. -/
def Term.mkMap (s : Expr) (m : List (Nat × Expr)) : TermS :=
  ⟨promoteTypesMap s.dtype (m.map (fun p => (p.1, p.2.dtype))), s,
   Term.sortVars (m.map Prod.snd)⟩

/-- Modelled from the spec: Term::hashVars() hashes only the non-scalar
components, combined order-independently (commutative combination of child
hashes), so two groupings with the same variable multiset hash equal. -/
def TermS.hashVars (t : TermS) : Nat :=
  (t.vars.map exprHash).sum

/-- The embedded Polynomial node: promoted dtype, constant scalar addend and
the hash-sorted Term list. -/
structure PolyS where
  dtype : Dtype
  scalar : Expr
  vars : List TermS
deriving DecidableEq

/-- A Term node, used as an operand of promoteTypesVar, reports
Expr::isConstant() false (Term does not override the default). -/
def termDB (t : TermS) : Dtype × Bool :=
  (t.dtype, false)

/-- Modelled from the spec: Polynomial::sort() orders the Terms by their
hashVars value, same sort invariant as Term but over Terms. -/
def Polynomial.sortTerms (v : List TermS) : List TermS :=
  keySort TermS.hashVars v

/-- The variadic Polynomial constructor (header lines 166-172):
promoteTypesVar dtype, CHECK(s->isConstant()), terms appended then sorted. -/
def Polynomial.mkVariadic (s : Expr) (ts : List TermS) : Except String PolyS :=
  if s.isConstant then
    .ok ⟨promoteTypesVar (exprDB s) (ts.map termDB), s, Polynomial.sortTerms ts⟩
  else .error "CHECK failed: s->isConstant()"

/-- The vector Polynomial constructor (header lines 174-180): no isConstant
check on the scalar. -/
def Polynomial.mkVec (s : Expr) (v : List TermS) : PolyS :=
  ⟨promoteTypesVec s.dtype (v.map TermS.dtype), s, Polynomial.sortTerms v⟩

/-- Modelled from the spec: the literal-construction helper
getImmediateByType(dtype, value) builds a typed constant node. -/
def getImmediateByType (d : Dtype) (v : Int) : Expr :=
  .imm d v

/-- The terms-only Polynomial constructor (header lines 183-189): the dtype
is promoteTypesVec over the terms alone (which throws on an empty list,
propagated here as Except.error) and the scalar slot is
getImmediateByType(dtype(), 0). -/
def Polynomial.mkTerms (terms : List TermS) : Except String PolyS :=
  match promoteTypesVecNoScalar (terms.map TermS.dtype) with
  | .error msg => .error msg
  | .ok d => .ok ⟨d, getImmediateByType d 0, Polynomial.sortTerms terms⟩

/-- The map Polynomial constructor (header lines 193-202): no isConstant
check on the scalar. -/
def Polynomial.mkMap (s : Expr) (m : List (Nat × TermS)) : PolyS :=
  ⟨promoteTypesMap s.dtype (m.map (fun p => (p.1, p.2.dtype))), s,
   Polynomial.sortTerms (m.map Prod.snd)⟩

/-- Modelled from the spec: Polynomial::hashVars() hashes only the non-scalar
components, order-independently. -/
def PolyS.hashVars (p : PolyS) : Nat :=
  (p.vars.map TermS.hashVars).sum

/-! ### Part 2: the two-pass simplification pipeline.

The bodies of the PolynomialTransformer mutate overloads for Add/Sub/Mul and
of the TermExpander live in ir_simplifier.cpp, which is not part of the
excerpt; the whole pipeline below is modelled from the spec over the
arithmetic fragment constant / variable / Add / Sub / Mul.  A Term is
represented by its integer coefficient and its canonically ordered multiset
of variable indices, a Polynomial by its integer scalar and its Terms kept
sorted by their variable key with at most one Term per key and no
zero-coefficient Term, mirroring the invariants of section 3 of the spec. -/

inductive SExpr where
  | const (n : Int)
  | varE (i : Nat)
  | add (l r : SExpr)
  | sub (l r : SExpr)
  | mul (l r : SExpr)
deriving DecidableEq

structure NTerm where
  coeff : Int
  vars : List Nat
deriving DecidableEq

structure NPoly where
  scalar : Int
  terms : List NTerm
deriving DecidableEq

/-- Strict lexicographic order on variable keys, the canonical order of the
hash-sorted Term list of a Polynomial. -/
def varsLt : List Nat → List Nat → Bool
  | [], [] => false
  | [], _ :: _ => true
  | _ :: _, [] => false
  | a :: as, b :: bs =>
    if a < b then true else if b < a then false else varsLt as bs

/-- Ordered merge of two sorted variable multisets, used when two Terms are
multiplied (mulTerms concatenates the variable lists and re-sorts). -/
def mergeVars : List Nat → List Nat → List Nat
  | [], ys => ys
  | x :: xs, [] => x :: xs
  | x :: xs, y :: ys =>
    if x ≤ y then x :: mergeVars xs (y :: ys) else y :: mergeVars (x :: xs) ys
termination_by xs ys => xs.length + ys.length

/-- Modelled from the spec: mulTerms multiplies scalars and concatenates the
variable lists, re-sorting the result. -/
def termMul (t u : NTerm) : NTerm :=
  ⟨t.coeff * u.coeff, mergeVars t.vars u.vars⟩

/-- Merging of two sorted Term lists, combining the scalars of Terms with the
same variable key and dropping a combined Term whose scalar cancels to zero
(the addOrUpdateTerm merge of the spec). -/
def mergeTerms : List NTerm → List NTerm → List NTerm
  | [], ys => ys
  | x :: xs, [] => x :: xs
  | x :: xs, y :: ys =>
    if varsLt x.vars y.vars then x :: mergeTerms xs (y :: ys)
    else if varsLt y.vars x.vars then y :: mergeTerms (x :: xs) ys
    else
      let c := x.coeff + y.coeff
      if c = 0 then mergeTerms xs ys else ⟨c, x.vars⟩ :: mergeTerms xs ys
termination_by xs ys => xs.length + ys.length

/-- Multiplying each Term by a constant; a zero constant annihilates the list
(the Term would have scalar zero and is dropped by the merge). -/
def scaleTerms (c : Int) (ts : List NTerm) : List NTerm :=
  if c = 0 then [] else ts.map (fun t => ⟨c * t.coeff, t.vars⟩)

/-- One addOrUpdateTerm insertion into a sorted Term list. -/
def insertTerm1 (acc : List NTerm) (t : NTerm) : List NTerm :=
  if t.coeff = 0 then acc else mergeTerms acc [t]

/-- Re-merging a bag of Terms produced by a distribution, one addOrUpdateTerm
insertion at a time. -/
def normTerms (l : List NTerm) : List NTerm :=
  l.foldl insertTerm1 []

/-- Modelled from the spec: addPolynomials merges the two scalars and the two
Term maps, combining Terms with equal keys and dropping cancelled ones. -/
def padd (p q : NPoly) : NPoly :=
  ⟨p.scalar + q.scalar, mergeTerms p.terms q.terms⟩

/-- Logical negation of a Polynomial, applied to the right operand of a
subtraction before the additive merge. -/
def pneg (p : NPoly) : NPoly :=
  ⟨-p.scalar, p.terms.map (fun t => ⟨-t.coeff, t.vars⟩)⟩

/-- Modelled from the spec: Polynomial multiplication by full distribution
(every Term pair multiplied via mulTerms, the scalars distributed over the
other side's Terms) followed by the addOrUpdateTerm re-merge. -/
def pmul (p q : NPoly) : NPoly :=
  ⟨p.scalar * q.scalar,
   normTerms
     (scaleTerms q.scalar p.terms ++ scaleTerms p.scalar q.terms ++
       (p.terms.map (fun t => q.terms.map (termMul t))).flatten)⟩

/-- Modelled from the spec: the Polynomial Transformer pass.  Bottom-up it
turns a constant into a bare scalar, a variable into a coefficient-one Term,
and dispatches Add/Sub/Mul to the polynomial merge operations
(addPolynomials / subPolynomials / distribution). -/
def transform : SExpr → NPoly
  | .const n => ⟨n, []⟩
  | .varE i => ⟨0, [⟨1, [i]⟩]⟩
  | .add l r => padd (transform l) (transform r)
  | .sub l r => padd (transform l) (pneg (transform r))
  | .mul l r => pmul (transform l) (transform r)

/-- Modelled from the spec: TermExpander::mutate(Term) produces a
left-to-right chain of Mul nodes over the scalar and the variables; a scalar
equal to the multiplicative identity is elided when there is at least one
variable. -/
def expandTerm (t : NTerm) : SExpr :=
  match t.vars with
  | [] => .const t.coeff
  | v :: vs =>
    let base := if t.coeff = 1 then SExpr.varE v
      else .mul (.const t.coeff) (.varE v)
    vs.foldl (fun acc x => .mul acc (.varE x)) base

/-- Modelled from the spec: the Add-chain part of TermExpander::mutate
(Polynomial): a left-to-right chain of Add nodes over the scalar and the
expanded Terms; a zero scalar is elided when at least one Term is present and
an empty Term list degenerates to the bare scalar. -/
def expandChain (p : NPoly) : SExpr :=
  match p.terms with
  | [] => .const p.scalar
  | t :: ts =>
    let base := if p.scalar = 0 then expandTerm t
      else .add (.const p.scalar) (expandTerm t)
    ts.foldl (fun acc u => .add acc (expandTerm u)) base

/-- The greatest common divisor of the absolute values of the Polynomial's
scalar and every Term's scalar. -/
def gcdAll (p : NPoly) : Nat :=
  p.terms.foldl (fun g t => Nat.gcd g t.coeff.natAbs) p.scalar.natAbs

/-- Dividing every scalar of the Polynomial by a common divisor. -/
def pdivC (p : NPoly) (g : Int) : NPoly :=
  ⟨p.scalar / g, p.terms.map (fun t => ⟨t.coeff / g, t.vars⟩)⟩

/-- Modelled from the spec: TermExpander::factorizePolynomial rewrites the
Polynomial as GCD * (poly / GCD) when the GCD of the scalar components
exceeds one, and otherwise leaves the Polynomial unchanged (expanded as a
plain Add chain). -/
def factorizePolynomial (p : NPoly) : SExpr :=
  let g := gcdAll p
  if g ≤ 1 then expandChain p
  else .mul (.const (g : Int)) (expandChain (pdivC p (g : Int)))

/-- Modelled from the spec: TermExpander::mutate(Polynomial): an empty Term
list degenerates to the bare scalar, otherwise the optional GCD factorization
runs and the result is expanded into primitive Add/Mul nodes. -/
def expandPoly (p : NPoly) : SExpr :=
  match p.terms with
  | [] => .const p.scalar
  | _ => factorizePolynomial p

/-- IRSimplifier::simplify(const Expr*) from the header (lines 379-388): run
a freshly constructed PolynomialTransformer over the root, then run a freshly
constructed TermExpander (bound to that transformer) over the transformer's
output, and return the expander's output.  The transformer instance carries
only the Hash Provider, which is stateless in this model. -/
def IRSimplifier.simplify (e : SExpr) : SExpr :=
  let e1 := transform e
  let e2 := expandPoly e1
  e2

/-- Statement trees: statements recurse into their contained expressions
only. -/
inductive SStmt where
  | exprStmt (e : SExpr)
  | seq (a b : SStmt)
  | nop
deriving DecidableEq

/-- The intermediate statement produced by the transformer pass, in which
every contained expression has become a Term/Polynomial grouping. -/
inductive SStmtI where
  | exprStmt (p : NPoly)
  | seq (a b : SStmtI)
  | nop
deriving DecidableEq

/-- The transformer pass over a statement tree: recurses into the contained
expressions only. -/
def transformStmt : SStmt → SStmtI
  | .exprStmt e => .exprStmt (transform e)
  | .seq a b => .seq (transformStmt a) (transformStmt b)
  | .nop => .nop

/-- The expander pass over the transformer's statement output. -/
def expandStmt : SStmtI → SStmt
  | .exprStmt p => .exprStmt (expandPoly p)
  | .seq a b => .seq (expandStmt a) (expandStmt b)
  | .nop => .nop

/-- IRSimplifier::simplify(Stmt*) from the header (lines 394-403): the same
two-pass sequence applied to a statement root. -/
def IRSimplifier.simplifyStmt (s : SStmt) : SStmt :=
  let s1 := transformStmt s
  let s2 := expandStmt s1
  s2

/-- The non-strict ordering by a numeric key that the hash-sorted component
lists of Term and Polynomial satisfy. -/
def keyLe {α : Type} (key : α → Nat) (a b : α) : Prop :=
  key a ≤ key b

/-! ### Theorems -/

/-- After the first loop iteration of promoteTypesVec/promoteTypesMap the
first-iteration flag is false and the loop is a plain promoteTypes fold. -/
theorem promoteFold_false (vs : List Dtype) (t : Dtype) :
    (vs.foldl
      (fun (p : Dtype × Bool) (e : Dtype) =>
        let t2 := if p.2 then Dtype.mk p.1.scalar_type e.lanes else p.1
        (promoteTypes t2 e, false))
      (t, false)).1 = vs.foldl promoteTypes t := by
  induction vs generalizing t with
  | nil => rfl
  | cons e es ih => simpa using ih (promoteTypes t e)

/-- Same fact for the association-list loop of promoteTypesMap. -/
theorem promoteFoldMap_false (ms : List (Nat × Dtype)) (t : Dtype) :
    (ms.foldl
      (fun (p : Dtype × Bool) (e : Nat × Dtype) =>
        let t2 := if p.2 then Dtype.mk p.1.scalar_type e.2.lanes else p.1
        (promoteTypes t2 e.2, false))
      (t, false)).1 = (ms.map Prod.snd).foldl promoteTypes t := by
  induction ms generalizing t with
  | nil => rfl
  | cons e es ih => simpa using ih (promoteTypes t e.2)

/-- C4: computing the promoted dtype of an empty list of expressions is a
fatal malformed-input error: promoteTypesVec on the empty vector produces
the malformed_input failure "empty list of types", the terms-only Polynomial
constructor propagates exactly that failure to its caller, and this is the
only way that constructor fails. -/
theorem c4_empty_promotion_malformed :
    promoteTypesVecNoScalar ([] : List Dtype) = .error "empty list of types" ∧
    Polynomial.mkTerms ([] : List TermS) = .error "empty list of types" ∧
    ∀ ts : List TermS, (∃ msg, Polynomial.mkTerms ts = .error msg) ↔ ts = [] := by
  refine ⟨rfl, rfl, ?_⟩
  intro ts
  constructor
  · intro ⟨msg, hmsg⟩
    cases ts with
    | nil => rfl
    | cons t tail =>
      simp [Polynomial.mkTerms, promoteTypesVecNoScalar] at hmsg
  · intro h
    exact h ▸ ⟨"empty list of types", rfl⟩

/-- C4 witness: on a concrete nonempty list the terms-only constructor
succeeds, and on the empty list it fails with the malformed_input message. -/
theorem c4_witness :
    (∃ msg, Polynomial.mkTerms ([] : List TermS) = .error msg) ∧
    ¬(∃ msg, Polynomial.mkTerms
        [⟨⟨ScalarType.int32, 1⟩, Expr.imm ⟨ScalarType.int32, 1⟩ 1, []⟩]
      = .error msg) := by
  constructor
  · exact (c4_empty_promotion_malformed.2.2 ([] : List TermS)).2 rfl
  · intro hmsg
    have := (c4_empty_promotion_malformed.2.2
      [⟨⟨ScalarType.int32, 1⟩, Expr.imm ⟨ScalarType.int32, 1⟩ 1, []⟩]).1 hmsg
    cases this

/-- C9: a Polynomial built by the terms-only constructor always carries as
its scalar the literal zero immediate of its own (promoted) dtype, which is
a constant. -/
theorem c9_terms_only_scalar_zero (terms : List TermS) (p : PolyS)
    (h : Polynomial.mkTerms terms = .ok p) :
    p.scalar = getImmediateByType p.dtype 0 ∧
    p.scalar = Expr.imm p.dtype 0 ∧
    p.scalar.isConstant = true := by
  unfold Polynomial.mkTerms at h
  cases hp : promoteTypesVecNoScalar (terms.map TermS.dtype) with
  | error msg => rw [hp] at h; cases h
  | ok d =>
    rw [hp] at h
    cases h
    exact ⟨rfl, rfl, rfl⟩

/-- C9 witness: a concrete one-term list. -/
theorem c9_witness :
    Polynomial.mkTerms
        [⟨⟨ScalarType.int32, 1⟩, Expr.imm ⟨ScalarType.int32, 1⟩ 1, []⟩]
      = .ok ⟨⟨ScalarType.int32, 1⟩, Expr.imm ⟨ScalarType.int32, 1⟩ 0,
          [⟨⟨ScalarType.int32, 1⟩, Expr.imm ⟨ScalarType.int32, 1⟩ 1, []⟩]⟩ ∧
    (⟨⟨ScalarType.int32, 1⟩, Expr.imm ⟨ScalarType.int32, 1⟩ 0,
        [⟨⟨ScalarType.int32, 1⟩, Expr.imm ⟨ScalarType.int32, 1⟩ 1, []⟩]⟩ :
      PolyS).scalar.isConstant = true := by
  refine ⟨rfl, ?_⟩
  exact (c9_terms_only_scalar_zero
    [⟨⟨ScalarType.int32, 1⟩, Expr.imm ⟨ScalarType.int32, 1⟩ 1, []⟩] _ rfl).2.2

/-- C10: in promoteTypesVec(s, v) and promoteTypesMap the scalar's lane count
is unconditionally replaced by the lane count of the first element processed
— the loop has no isConstant test, so the scalar's own lane count is simply
never read — and only afterwards is promoteTypes folded over all elements
(the first element included). -/
theorem c10_scalar_lanes_unconditionally_replaced (s : Dtype) (v : List Dtype)
    (m : List (Nat × Dtype)) (hv : v ≠ []) (hm : m ≠ []) :
    promoteTypesVec s v
      = v.foldl promoteTypes ⟨s.scalar_type, (v.head hv).lanes⟩ ∧
    promoteTypesMap s m
      = (m.map Prod.snd).foldl promoteTypes ⟨s.scalar_type, (m.head hm).2.lanes⟩ ∧
    (∀ n, promoteTypesVec ⟨s.scalar_type, n⟩ v = promoteTypesVec s v) ∧
    (∀ n, promoteTypesMap ⟨s.scalar_type, n⟩ m = promoteTypesMap s m) := by
  refine ⟨?_, ?_, ?_, ?_⟩
  · cases v with
    | nil => exact absurd rfl hv
    | cons e es =>
      show (es.foldl _ (promoteTypes ⟨s.scalar_type, e.lanes⟩ e, false)).1 = _
      rw [promoteFold_false]
      rfl
  · cases m with
    | nil => exact absurd rfl hm
    | cons e es =>
      show (es.foldl _ (promoteTypes ⟨s.scalar_type, e.2.lanes⟩ e.2, false)).1 = _
      rw [promoteFoldMap_false]
      rfl
  · intro n
    cases v with
    | nil => exact absurd rfl hv
    | cons e es => rfl
  · intro n
    cases m with
    | nil => exact absurd rfl hm
    | cons e es => rfl

/-- C10 witness: an int scalar of lane count 7 against a 4-lane float
element; the scalar's lane count is discarded. -/
theorem c10_witness :
    ([⟨ScalarType.float32, 4⟩] : List Dtype) ≠ [] ∧
    ([(0, ⟨ScalarType.float32, 4⟩)] : List (Nat × Dtype)) ≠ [] ∧
    promoteTypesVec ⟨ScalarType.int32, 7⟩ [⟨ScalarType.float32, 4⟩]
      = ⟨ScalarType.float32, 4⟩ := by
  refine ⟨by decide, by decide, ?_⟩
  have h := (c10_scalar_lanes_unconditionally_replaced ⟨ScalarType.int32, 7⟩
    [⟨ScalarType.float32, 4⟩] [(0, ⟨ScalarType.float32, 4⟩)]
    (by decide) (by decide)).1
  rw [h]; decide

/-- C6: in the variadic pairwise promotion promoteTypesVar, a constant left
operand adopts the lane width of the (promoted) right-hand side: its scalar
type is recombined with the right-hand side's lane count and only then are
the two dtypes promoted; consequently the result does not depend on the
constant operand's own lane count. -/
theorem c6_constant_adopts_sibling_lanes (st : ScalarType) (ln : Nat)
    (rest : List (Dtype × Bool)) (h : rest ≠ []) :
    promoteTypesVar (⟨st, ln⟩, true) rest
      = promoteTypes ⟨st, (promoteTypesVar (rest.head h) rest.tail).lanes⟩
          (promoteTypesVar (rest.head h) rest.tail) ∧
    ∀ n, promoteTypesVar (⟨st, n⟩, true) rest
      = promoteTypesVar (⟨st, ln⟩, true) rest := by
  cases rest with
  | nil => exact absurd rfl h
  | cons f fs => exact ⟨rfl, fun n => rfl⟩

/-- C6 witness: a 1-lane constant int promoted against a 4-lane float
variable adopts the 4-lane width before promotion. -/
theorem c6_witness :
    ([(⟨ScalarType.float32, 4⟩, false)] : List (Dtype × Bool)) ≠ [] ∧
    promoteTypesVar ((⟨ScalarType.int32, 1⟩ : Dtype), true)
        [(⟨ScalarType.float32, 4⟩, false)]
      = ⟨ScalarType.float32, 4⟩ := by
  refine ⟨by decide, ?_⟩
  have h := (c6_constant_adopts_sibling_lanes ScalarType.int32 1
    [(⟨ScalarType.float32, 4⟩, false)] (by decide)).1
  rw [h]; decide

/-- C5 counterexample: the vector-based Term constructor accepts a
non-constant expression in the scalar slot without any failure — the
constructed Term simply stores the non-constant scalar — refuting the claim
that every Term/Polynomial constructor fatally rejects a non-constant
scalar. -/
theorem c5_counterexample :
    (Term.mkVec (Expr.evar ⟨ScalarType.int32, 1⟩ 0)
        [Expr.evar ⟨ScalarType.int32, 1⟩ 1]).scalar
      = Expr.evar ⟨ScalarType.int32, 1⟩ 0 ∧
    (Expr.evar ⟨ScalarType.int32, 1⟩ 0).isConstant = false := by
  exact ⟨rfl, rfl⟩

/-- C5 amended: only the variadic Term and Polynomial constructors validate
the scalar slot with CHECK(s->isConstant()) and fail fatally on a
non-constant scalar; the vector- and map-based constructors perform no such
check and store the non-constant scalar unchanged. -/
theorem c5_only_variadic_checks_scalar (s : Expr) (hs : s.isConstant = false) :
    (∀ ts : List Expr,
      Term.mkVariadic s ts = .error "CHECK failed: s->isConstant()") ∧
    (∀ ts : List TermS,
      Polynomial.mkVariadic s ts = .error "CHECK failed: s->isConstant()") ∧
    (∀ v : List Expr, (Term.mkVec s v).scalar = s) ∧
    (∀ m : List (Nat × Expr), (Term.mkMap s m).scalar = s) ∧
    (∀ v : List TermS, (Polynomial.mkVec s v).scalar = s) ∧
    (∀ m : List (Nat × TermS), (Polynomial.mkMap s m).scalar = s) := by
  refine ⟨?_, ?_, ?_, ?_, ?_, ?_⟩ <;> intro l
  · simp [Term.mkVariadic, hs]
  · simp [Polynomial.mkVariadic, hs]
  · rfl
  · rfl
  · rfl
  · rfl

/-- C5 amended witness: the checks at a concrete non-constant scalar. -/
theorem c5_witness :
    (Expr.evar ⟨ScalarType.int32, 1⟩ 0).isConstant = false ∧
    Term.mkVariadic (Expr.evar ⟨ScalarType.int32, 1⟩ 0) []
      = .error "CHECK failed: s->isConstant()" ∧
    (Term.mkMap (Expr.evar ⟨ScalarType.int32, 1⟩ 0) []).scalar
      = Expr.evar ⟨ScalarType.int32, 1⟩ 0 := by
  refine ⟨rfl, ?_, ?_⟩
  · exact (c5_only_variadic_checks_scalar (Expr.evar ⟨ScalarType.int32, 1⟩ 0)
      rfl).1 []
  · exact (c5_only_variadic_checks_scalar (Expr.evar ⟨ScalarType.int32, 1⟩ 0)
      rfl).2.2.2.1 []

/-- C2: for a binary node of kind Mod, And, Xor, Lshift or Rshift, the
PolynomialTransformer mutate overload mutates both children with the
recursive mutator m; it constant-folds the node through evaluateOp exactly
when both mutated children are constant, returns the original node itself
when neither child changed (and the fold does not apply), and rebuilds a
node of the same kind from the mutated children when a child changed. -/
theorem c2_generic_binop_mutate (k : BinKind) (hk : isGenericBinKind k = true)
    (l r : Expr) (m : Expr → Expr) :
    (((m l).isConstant = true ∧ (m r).isConstant = true) →
      PolynomialTransformer.mutate m (newBinaryOpOfType k l r false)
        = evaluateOp (if m l = l ∧ m r = r then newBinaryOpOfType k l r false
            else newBinaryOpOfType k (m l) (m r) false)) ∧
    (¬((m l).isConstant = true ∧ (m r).isConstant = true) →
      (((m l = l ∧ m r = r) →
        PolynomialTransformer.mutate m (newBinaryOpOfType k l r false)
          = newBinaryOpOfType k l r false) ∧
       (¬(m l = l ∧ m r = r) →
        PolynomialTransformer.mutate m (newBinaryOpOfType k l r false)
          = newBinaryOpOfType k (m l) (m r) false))) := by
  cases k <;>
    first
    | exact absurd hk (by decide)
    | (simp only [newBinaryOpOfType, PolynomialTransformer.mutate,
        mutateBinaryOp, Expr.binDecomp]
       refine ⟨fun hc => ?_, fun hc => ⟨fun hu => ?_, fun hu => ?_⟩⟩
       · rw [if_pos hc]
         by_cases hu : m l = l ∧ m r = r
         · rw [if_pos ⟨hu.1.symm, hu.2.symm⟩, if_pos hu]
         · rw [if_neg (fun hc2 => hu ⟨hc2.1.symm, hc2.2.symm⟩), if_neg hu]
       · rw [if_neg hc, if_pos ⟨hu.1.symm, hu.2.symm⟩]
       · rw [if_neg hc, if_neg (fun hc2 => hu ⟨hc2.1.symm, hc2.2.symm⟩)])

/-- C2 witness: an unchanged Mod node over two non-constant variables is
returned as the original node. -/
theorem c2_witness :
    isGenericBinKind BinKind.kMod = true ∧
    ¬((id (Expr.evar ⟨ScalarType.int32, 1⟩ 0)).isConstant = true ∧
      (id (Expr.evar ⟨ScalarType.int32, 1⟩ 1)).isConstant = true) ∧
    PolynomialTransformer.mutate id
        (newBinaryOpOfType BinKind.kMod (Expr.evar ⟨ScalarType.int32, 1⟩ 0)
          (Expr.evar ⟨ScalarType.int32, 1⟩ 1) false)
      = newBinaryOpOfType BinKind.kMod (Expr.evar ⟨ScalarType.int32, 1⟩ 0)
          (Expr.evar ⟨ScalarType.int32, 1⟩ 1) false := by
  refine ⟨rfl, by decide, ?_⟩
  exact ((c2_generic_binop_mutate BinKind.kMod rfl
    (Expr.evar ⟨ScalarType.int32, 1⟩ 0) (Expr.evar ⟨ScalarType.int32, 1⟩ 1)
    id).2 (by decide)).1 (by exact ⟨rfl, rfl⟩)

/-- C3: the result of the Max/Min mutate overload carries the same
propagate_nans flag as the input node, whether the node is returned
unchanged or rebuilt from mutated children (the flag is threaded through
mutateBinaryOp's option argument into newBinaryOpOfType). -/
theorem c3_max_min_preserve_propagate_nans (l r : Expr) (pn : Bool)
    (m : Expr → Expr)
    (h : ¬((m l).isConstant = true ∧ (m r).isConstant = true)) :
    (PolynomialTransformer.mutate m (Expr.maxE l r pn)).propagateNansOf
      = some pn ∧
    (PolynomialTransformer.mutate m (Expr.minE l r pn)).propagateNansOf
      = some pn := by
  constructor <;>
    · simp only [PolynomialTransformer.mutate, mutateBinaryOp, Expr.binDecomp]
      split
      · exact absurd (by assumption) h
      · split <;> rfl

/-- C3 witness: an unchanged Max node and a rebuilt Min node both keep flag
true. -/
theorem c3_witness :
    ¬((id (Expr.evar ⟨ScalarType.int32, 1⟩ 0)).isConstant = true ∧
      (id (Expr.evar ⟨ScalarType.int32, 1⟩ 1)).isConstant = true) ∧
    (PolynomialTransformer.mutate id
        (Expr.maxE (Expr.evar ⟨ScalarType.int32, 1⟩ 0)
          (Expr.evar ⟨ScalarType.int32, 1⟩ 1) true)).propagateNansOf
      = some true := by
  refine ⟨by decide, ?_⟩
  exact (c3_max_min_preserve_propagate_nans
    (Expr.evar ⟨ScalarType.int32, 1⟩ 0) (Expr.evar ⟨ScalarType.int32, 1⟩ 1)
    true id (by decide)).1

/-- keyInsert produces a permutation of consing the element. -/
theorem keyInsert_perm {α : Type} (key : α → Nat) (x : α) (l : List α) :
    (keyInsert key x l).Perm (x :: l) := by
  induction l with
  | nil => exact List.Perm.refl _
  | cons y ys ih =>
    unfold keyInsert
    split
    · exact List.Perm.refl _
    · exact (List.Perm.cons y ih).trans (List.Perm.swap x y ys)

/-- keySort produces a permutation of its input. -/
theorem keySort_perm {α : Type} (key : α → Nat) (l : List α) :
    (keySort key l).Perm l := by
  induction l with
  | nil => exact List.Perm.refl _
  | cons x xs ih =>
    exact (keyInsert_perm key x (keySort key xs)).trans (List.Perm.cons x ih)

/-- keyInsert preserves sortedness by the key. -/
theorem keyInsert_pairwise {α : Type} (key : α → Nat) (x : α) (l : List α)
    (h : l.Pairwise (keyLe key)) :
    (keyInsert key x l).Pairwise (keyLe key) := by
  induction l with
  | nil => simp [keyInsert, List.Pairwise.nil]
  | cons y ys ih =>
    rcases List.pairwise_cons.1 h with ⟨hy, hys⟩
    unfold keyInsert
    split
    · refine List.pairwise_cons.2 ⟨?_, h⟩
      intro z hz
      rcases List.mem_cons.1 hz with hz | hz
      · subst hz; assumption
      · exact Nat.le_trans (by assumption) (hy z hz)
    · refine List.pairwise_cons.2 ⟨?_, ih hys⟩
      intro z hz
      have hz2 : z ∈ x :: ys := (keyInsert_perm key x ys).mem_iff.1 hz
      rcases List.mem_cons.1 hz2 with hz2 | hz2
      · subst hz2
        exact Nat.le_of_lt (Nat.lt_of_not_le (by assumption))
      · exact hy z hz2

/-- keySort produces a list sorted by the key. -/
theorem keySort_pairwise {α : Type} (key : α → Nat) (l : List α) :
    (keySort key l).Pairwise (keyLe key) := by
  induction l with
  | nil => exact List.Pairwise.nil
  | cons x xs ih => exact keyInsert_pairwise key x (keySort key xs) ih

/-- Two key-sorted permutations of each other whose elements have pairwise
distinct keys (no hash collision among the components) are equal: sorting by
hash is canonical. -/
theorem sorted_perm_key_inj_eq {α : Type} (key : α → Nat) :
    ∀ (l1 l2 : List α), l1.Perm l2 → l1.Pairwise (keyLe key) →
      l2.Pairwise (keyLe key) →
      (∀ a ∈ l1, ∀ b ∈ l1, key a = key b → a = b) → l1 = l2 := by
  intro l1
  induction l1 with
  | nil =>
    intro l2 hp _ _ _
    exact (List.Perm.nil_eq hp).symm ▸ rfl
  | cons a t1 ih =>
    intro l2 hp hs1 hs2 hinj
    cases l2 with
    | nil => exact absurd (List.Perm.eq_nil hp) (by simp)
    | cons b t2 =>
      rcases List.pairwise_cons.1 hs1 with ⟨ha1, ht1⟩
      rcases List.pairwise_cons.1 hs2 with ⟨hb2, ht2⟩
      have hab : a = b := by
        have haml : a ∈ b :: t2 := hp.mem_iff.1 (List.mem_cons_self a t1)
        rcases List.mem_cons.1 haml with h1 | h1
        · exact h1
        · have hbml : b ∈ a :: t1 := hp.symm.mem_iff.1 (List.mem_cons_self b t2)
          rcases List.mem_cons.1 hbml with h2 | h2
          · exact h2.symm
          · have hba : key b ≤ key a := hb2 a h1
            have hab2 : key a ≤ key b := ha1 b h2
            exact hinj a (List.mem_cons_self a t1) b (List.mem_cons.2 (Or.inr h2))
              (Nat.le_antisymm hab2 hba)
      subst hab
      have ht : t1.Perm t2 := hp.cons_inv
      have heq : t1 = t2 := by
        refine ih t2 ht ht1 ht2 ?_
        intro x hx y hy
        exact hinj x (List.mem_cons.2 (Or.inr hx)) y (List.mem_cons.2 (Or.inr hy))
      rw [heq]

/-- C7: each constructor of Term and Polynomial sorts its component
sequence by hash before the object becomes visible; consequently two Terms
(or Polynomials) built from the same component multiset in any order carry
the components in the identical canonical order whenever the components'
hashes are collision-free, and they always agree on the order-independent
hashVars value used to recognize combinable groupings. -/
theorem c7_canonical_hash_sorted_order :
    (∀ s v, (Term.mkVec s v).vars.Pairwise (keyLe exprHash)) ∧
    (∀ s m, (Term.mkMap s m).vars.Pairwise (keyLe exprHash)) ∧
    (∀ s ts t, Term.mkVariadic s ts = .ok t →
      t.vars.Pairwise (keyLe exprHash)) ∧
    (∀ s v, (Polynomial.mkVec s v).vars.Pairwise (keyLe TermS.hashVars)) ∧
    (∀ s m, (Polynomial.mkMap s m).vars.Pairwise (keyLe TermS.hashVars)) ∧
    (∀ s ts p, Polynomial.mkVariadic s ts = .ok p →
      p.vars.Pairwise (keyLe TermS.hashVars)) ∧
    (∀ ts p, Polynomial.mkTerms ts = .ok p →
      p.vars.Pairwise (keyLe TermS.hashVars)) ∧
    (∀ s1 s2 v1 v2, v1.Perm v2 →
      (∀ a ∈ v1, ∀ b ∈ v1, exprHash a = exprHash b → a = b) →
      (Term.mkVec s1 v1).vars = (Term.mkVec s2 v2).vars) ∧
    (∀ s1 s2 v1 v2, v1.Perm v2 →
      (Term.mkVec s1 v1).hashVars = (Term.mkVec s2 v2).hashVars) ∧
    (∀ s1 s2 v1 v2, v1.Perm v2 →
      (∀ a ∈ v1, ∀ b ∈ v1, TermS.hashVars a = TermS.hashVars b → a = b) →
      (Polynomial.mkVec s1 v1).vars = (Polynomial.mkVec s2 v2).vars) ∧
    (∀ s1 s2 (v1 v2 : List TermS), v1.Perm v2 →
      (Polynomial.mkVec s1 v1).hashVars = (Polynomial.mkVec s2 v2).hashVars) := by
  have hsortT : ∀ v : List Expr,
      (Term.sortVars v).Pairwise (keyLe exprHash) :=
    fun v => keySort_pairwise exprHash v
  have hsortP : ∀ v : List TermS,
      (Polynomial.sortTerms v).Pairwise (keyLe TermS.hashVars) :=
    fun v => keySort_pairwise TermS.hashVars v
  have hcanon : ∀ {α : Type} (key : α → Nat) (v1 v2 : List α), v1.Perm v2 →
      (∀ a ∈ v1, ∀ b ∈ v1, key a = key b → a = b) →
      keySort key v1 = keySort key v2 := by
    intro α key v1 v2 hperm hinj
    refine sorted_perm_key_inj_eq key _ _ ?_ (keySort_pairwise key v1)
      (keySort_pairwise key v2) ?_
    · exact (keySort_perm key v1).trans (hperm.trans (keySort_perm key v2).symm)
    · intro a ha b hb
      exact hinj a ((keySort_perm key v1).mem_iff.1 ha)
        b ((keySort_perm key v1).mem_iff.1 hb)
  have hsum : ∀ {α : Type} (key : α → Nat) (v1 v2 : List α), v1.Perm v2 →
      ((keySort key v1).map key).sum = ((keySort key v2).map key).sum := by
    intro α key v1 v2 hperm
    exact (((keySort_perm key v1).trans
      (hperm.trans (keySort_perm key v2).symm)).map key).sum_eq
  refine ⟨fun s v => hsortT v, fun s m => hsortT _, ?_, fun s v => hsortP v,
    fun s m => hsortP _, ?_, ?_, ?_, ?_, ?_, ?_⟩
  · intro s ts t h
    unfold Term.mkVariadic at h
    split at h
    · cases h; exact hsortT ts
    · cases h
  · intro s ts p h
    unfold Polynomial.mkVariadic at h
    split at h
    · cases h; exact hsortP ts
    · cases h
  · intro ts p h
    unfold Polynomial.mkTerms at h
    cases hp : promoteTypesVecNoScalar (ts.map TermS.dtype) with
    | error msg => rw [hp] at h; cases h
    | ok d => rw [hp] at h; cases h; exact hsortP ts
  · intro s1 s2 v1 v2 hperm hinj
    exact hcanon exprHash v1 v2 hperm hinj
  · intro s1 s2 v1 v2 hperm
    exact hsum exprHash v1 v2 hperm
  · intro s1 s2 v1 v2 hperm hinj
    exact hcanon TermS.hashVars v1 v2 hperm hinj
  · intro s1 s2 v1 v2 hperm
    exact hsum TermS.hashVars v1 v2 hperm

/-- C7 witness: two Terms over the same two variables given in opposite
orders end up with identical component order and equal hashVars. -/
theorem c7_witness :
    ([Expr.evar ⟨ScalarType.int32, 1⟩ 1, Expr.evar ⟨ScalarType.int32, 1⟩ 0]
      : List Expr).Perm
      [Expr.evar ⟨ScalarType.int32, 1⟩ 0, Expr.evar ⟨ScalarType.int32, 1⟩ 1] ∧
    (Term.mkVec (Expr.imm ⟨ScalarType.int32, 1⟩ 2)
        [Expr.evar ⟨ScalarType.int32, 1⟩ 1,
         Expr.evar ⟨ScalarType.int32, 1⟩ 0]).vars
      = (Term.mkVec (Expr.imm ⟨ScalarType.int32, 1⟩ 3)
          [Expr.evar ⟨ScalarType.int32, 1⟩ 0,
           Expr.evar ⟨ScalarType.int32, 1⟩ 1]).vars ∧
    (Term.mkVec (Expr.imm ⟨ScalarType.int32, 1⟩ 2)
        [Expr.evar ⟨ScalarType.int32, 1⟩ 1,
         Expr.evar ⟨ScalarType.int32, 1⟩ 0]).hashVars
      = (Term.mkVec (Expr.imm ⟨ScalarType.int32, 1⟩ 3)
          [Expr.evar ⟨ScalarType.int32, 1⟩ 0,
           Expr.evar ⟨ScalarType.int32, 1⟩ 1]).hashVars := by
  refine ⟨by decide, ?_, ?_⟩
  · exact c7_canonical_hash_sorted_order.2.2.2.2.2.2.2.1
      (Expr.imm ⟨ScalarType.int32, 1⟩ 2) (Expr.imm ⟨ScalarType.int32, 1⟩ 3)
      _ _ (by decide) (by decide)
  · exact c7_canonical_hash_sorted_order.2.2.2.2.2.2.2.2.1
      (Expr.imm ⟨ScalarType.int32, 1⟩ 2) (Expr.imm ⟨ScalarType.int32, 1⟩ 3)
      _ _ (by decide)

/-- C1: IRSimplifier::simplify runs the Polynomial Transformer pass over the
root and then the Term Expander pass over the transformer's output,
returning the expander's output; the statement overload applies the same
two-pass sequence, and on every contained expression the statement pipeline
agrees with the expression pipeline. -/
theorem c1_two_pass_facade :
    (∀ e, IRSimplifier.simplify e = expandPoly (transform e)) ∧
    (∀ s, IRSimplifier.simplifyStmt s = expandStmt (transformStmt s)) ∧
    (∀ e, IRSimplifier.simplifyStmt (.exprStmt e)
      = .exprStmt (IRSimplifier.simplify e)) ∧
    (∀ a b, IRSimplifier.simplifyStmt (.seq a b)
      = .seq (IRSimplifier.simplifyStmt a) (IRSimplifier.simplifyStmt b)) :=
  ⟨fun _ => rfl, fun _ => rfl, fun _ => rfl, fun _ _ => rfl⟩

/-! ### Lemmas about the canonical polynomial operations, towards the
idempotence of the two-pass pipeline. -/

theorem varsLt_cons (x y : Nat) (xs ys : List Nat) :
    varsLt (x :: xs) (y :: ys)
      = if x < y then true else if y < x then false else varsLt xs ys := rfl

theorem varsLt_irrefl : ∀ l : List Nat, varsLt l l = false := by
  intro l
  induction l with
  | nil => rfl
  | cons a as ih => simp [varsLt_cons, ih]

end IRSimp
